import Mathlib

/-!
Shallow embedding of the MPC repository (src/CarND-MPC-Project):
MPC.cpp (FG_eval cost and constraint assembly, MPC::Solve bounds and
result extraction) and main.cpp (polyeval, polyfit, the telemetry
handler with waypoint transform, latency compensation and the steering
sign conventions).  Machine doubles are modelled as exact rationals
where the code is purely arithmetic, and as reals where the code uses
transcendental functions (cos, sin, atan).
-/

namespace MPCRepo

open Matrix

/-! ### Configuration constants, from the top of MPC.cpp -/

/-- Horizon length: size_t N = 15. -/
def N : ℕ := 15

/-- Timestep: double dt = 0.15. -/
def dt : ℚ := 15/100

/-- Start index of the x block: x_start = 0. -/
def x_start : ℕ := 0

/-- Start index of the y block: y_start = x_start + N. -/
def y_start : ℕ := x_start + N

/-- Start index of the psi block. -/
def psi_start : ℕ := y_start + N

/-- Start index of the v block. -/
def v_start : ℕ := psi_start + N

/-- Start index of the cte block. -/
def cte_start : ℕ := v_start + N

/-- Start index of the epsi block. -/
def epsi_start : ℕ := cte_start + N

/-- Start index of the steering block (N-1 values). -/
def delta_start : ℕ := epsi_start + N

/-- Start index of the acceleration block (N-1 values). -/
def a_start : ℕ := delta_start + N - 1

/-- Wheelbase proxy: const double Lf = 2.67 (same value in main.cpp). -/
def Lf : ℚ := 267/100

/-- Reference cross-track error: double ref_cte = 0. -/
def ref_cte : ℚ := 0

/-- Reference heading error: double ref_epsi = 0. -/
def ref_epsi : ℚ := 0

/-- Reference velocity: double ref_v = 80. -/
def ref_v : ℚ := 80

/-! ### Cost weights, from FG_eval::operator() -/

/-- Weight on cross-track error: w_cte = 1000. -/
def w_cte : ℚ := 1000

/-- Weight on heading error: w_epsi = 1000. -/
def w_epsi : ℚ := 1000

/-- Weight on speed deviation: w_dv = 1. -/
def w_dv : ℚ := 1

/-- Weight on steering use: w_delta = 100. -/
def w_delta : ℚ := 100

/-- Weight on throttle use: w_a = 10. -/
def w_a : ℚ := 10

/-- Weight on steering rate: w_ddelta = 10. -/
def w_ddelta : ℚ := 10

/-- Weight on throttle rate: w_da = 10. -/
def w_da : ℚ := 10

/-- The cost fg[0] assembled by FG_eval::operator(): three loops, each
iteration adding its terms to the accumulator exactly as the three
fg[0] += statements do (loop ranges t < N, t < N-1, t < N-2). -/
def fg0 (vars : ℕ → ℚ) : ℚ :=
  let c1 := (List.range N).foldl
    (fun acc t => acc + w_cte * (vars (cte_start + t))^2
      + w_epsi * (vars (epsi_start + t))^2
      + w_dv * (vars (v_start + t) - ref_v)^2) 0
  let c2 := (List.range (N-1)).foldl
    (fun acc t => acc + w_delta * (vars (delta_start + t))^2
      + w_a * (vars (a_start + t))^2) c1
  (List.range (N-2)).foldl
    (fun acc t => acc + w_ddelta * (vars (delta_start + t + 1) - vars (delta_start + t))^2
      + w_da * (vars (a_start + t + 1) - vars (a_start + t))^2) c2

/-- The objective written from the words of the specification (section 4.3):
sum over t = 0..N-1 of the tracking terms, plus t = 0..N-2 actuation terms,
plus t = 0..N-3 smoothness terms, with the decision vector laid out as six
contiguous state blocks of length N followed by two control blocks of
length N-1 (so cte sits at offset 4N, epsi at 5N, v at 3N, delta at 6N,
a at 7N-1). -/
def costSpec (vars : ℕ → ℚ) : ℚ :=
  (∑ t ∈ Finset.range N, (w_cte * (vars (4*N + t))^2
      + w_epsi * (vars (5*N + t))^2
      + w_dv * (vars (3*N + t) - ref_v)^2))
  + (∑ t ∈ Finset.range (N-1), (w_delta * (vars (6*N + t))^2
      + w_a * (vars (7*N - 1 + t))^2))
  + (∑ t ∈ Finset.range (N-2), (w_ddelta * (vars (6*N + t + 1) - vars (6*N + t))^2
      + w_da * (vars (7*N - 1 + t + 1) - vars (7*N - 1 + t))^2))

/-! ### Constraint rows written by FG_eval::operator() -/

/-- The six block start offsets, in the order the code pins them. -/
def blockStarts : List ℕ := [x_start, y_start, psi_start, v_start, cte_start, epsi_start]

/-- The set of fg indices (constraint rows; fg[0] is the cost) assigned by
FG_eval::operator(): for each block start s, the initial pin fg[s + 1],
and the dynamics rows fg[s + t + 2] for t in the loop range 0..N-3
(the loop condition in the code is t < N-2). -/
def fgWrittenIndices : Finset ℕ :=
  blockStarts.toFinset.biUnion
    (fun s => insert (s + 1) ((Finset.range (N-2)).image (fun t => s + t + 2)))

/-- Number of constraints handed to the solver: n_constraints = N*6. -/
def n_constraints : ℕ := N * 6

/-- Number of decision variables: n_vars = N*6 + (N-1)*2. -/
def n_vars : ℕ := N * 6 + (N - 1) * 2

/-! ### Decision-variable bounds set in MPC::Solve -/

/-- Steering bound used by MPC::Solve: 0.436332 rad (25 degrees). -/
def maxSteer : ℚ := 436332/1000000

/-- Lower bounds on the decision variables, as the three loops in
MPC::Solve write them: -1.0e19 for i < delta_start, -0.436332 for the
steering block, -1.0 for the acceleration block. -/
def vars_lowerbound (i : ℕ) : ℚ :=
  if i < delta_start then -(10^19)
  else if i < a_start then -maxSteer
  else -1

/-- Upper bounds on the decision variables, mirroring the same loops. -/
def vars_upperbound (i : ℕ) : ℚ :=
  if i < delta_start then 10^19
  else if i < a_start then maxSteer
  else 1

/-- Constraint lower bounds: zero except the six initial-state pins,
which are fixed at the input state components. -/
def constraints_lowerbound (st : Fin 6 → ℚ) (i : ℕ) : ℚ :=
  if i = x_start then st 0
  else if i = y_start then st 1
  else if i = psi_start then st 2
  else if i = v_start then st 3
  else if i = cte_start then st 4
  else if i = epsi_start then st 5
  else 0

/-- Constraint upper bounds: identical to the lower bounds in the code. -/
def constraints_upperbound (st : Fin 6 → ℚ) (i : ℕ) : ℚ :=
  constraints_lowerbound st i

/-! ### Solver status and the result extraction at the end of MPC::Solve -/

/-- Return status of the interior-point solver
(CppAD::ipopt::solve_result::status_type). -/
inductive SolveStatus where
  | success
  | notDefined
  | maxiterExceeded
  | stopAtTinyStep
  | stopAtAcceptablePoint
  | localInfeasibility
  | restorationFailure
  | diverging
  | internalError
  deriving DecidableEq

/-- The flag computed in MPC::Solve: ok = true; ok &= (status == success).
It is never read afterwards. -/
def solveOk (st : SolveStatus) : Bool :=
  true && decide (st = SolveStatus.success)

/-- The vector returned by MPC::Solve, given the solver status and the
solver decision vector solution.x: push_back of solution.x[delta_start]
and solution.x[a_start], then a loop over i < N-1 pushing
solution.x[x_start + i] and solution.x[y_start + i].  The status
argument is taken because the code computes ok from it, but the
extraction does not consult it. -/
def mpcSolve (_st : SolveStatus) (solx : ℕ → ℚ) : List ℚ :=
  (List.range (N-1)).foldl
    (fun acc i => acc ++ [solx (x_start + i), solx (y_start + i)])
    [solx delta_start, solx a_start]

/-! ### polyeval and polyfit, from main.cpp -/

/-- Errors surfaced by the telemetry cycle.  The asserts in polyfit are
modelled as raised conditions: assert(xvals.size() == yvals.size()) and
assert(order >= 1 && order <= xvals.size() - 1); the second failing is
the InsufficientWaypoints condition of the specification. -/
inductive MPCError where
  | lengthMismatch
  | insufficientWaypoints
  deriving DecidableEq

/-- Evaluate a polynomial, as the loop in main.cpp:
result += coeffs[i] * pow(x, i) for i below the coefficient count. -/
def polyeval {K : Type*} [Field K] (coeffs : List K) (x : K) : K :=
  (List.range coeffs.length).foldl (fun result i => result + coeffs.getD i 0 * x^i) 0

/-- Column entries of the design matrix, built multiplicatively as in
polyfit: A(j, 0) = 1 and A(j, i+1) = A(j, i) * x_j. -/
def vanPow {K : Type*} [Field K] (x : K) : ℕ → K
  | 0 => 1
  | i + 1 => vanPow x i * x

/-- The Vandermonde-style design matrix A built by polyfit for a fit of
the given order through the sample abscissae. -/
def designMatrix {K : Type*} [Field K] (order : ℕ) {n : ℕ} (xs : Fin n → K) :
    Matrix (Fin n) (Fin (order + 1)) K :=
  Matrix.of fun i j => vanPow (xs i) j

/-- Least-squares solve A.householderQr().solve(y), modelled by the
normal equations: the solution of (A transposed * A) c = A transposed * y,
computed with the adjugate-based inverse.  For a design matrix of full
column rank this is exactly the unique least-squares solution that the
Householder QR factorization returns. -/
def lsqSolve {K : Type*} [Field K] {n k : ℕ} (A : Matrix (Fin n) (Fin k) K)
    (y : Fin n → K) : Fin k → K :=
  (((Aᵀ * A).det)⁻¹ • (Aᵀ * A).adjugate) *ᵥ (Aᵀ *ᵥ y)

/-- The fitting computation inside polyfit, after its asserts pass. -/
def polyfitCore {K : Type*} [Field K] (order : ℕ) {n : ℕ}
    (xs ys : Fin n → K) : Fin (order + 1) → K :=
  lsqSolve (designMatrix order xs) ys

/-- Fit a polynomial (main.cpp polyfit): the two asserts guard the input,
then the design matrix is assembled and the least-squares system solved. -/
def polyfit {K : Type*} [Field K] (xvals yvals : List K) (order : ℕ) :
    Except MPCError (List K) :=
  if xvals.length ≠ yvals.length then .error .lengthMismatch
  else if ¬ (1 ≤ order ∧ order + 1 ≤ xvals.length) then .error .insufficientWaypoints
  else .ok (List.ofFn (polyfitCore order
    (fun i : Fin xvals.length => xvals.get i)
    (fun i : Fin xvals.length => yvals.getD i 0)))

/-! ### The telemetry handler in main.cpp -/

/-- Inbound steering sign adjustment, main.cpp line 97: delta *= -1
(adjust for negative steering angle before using the feedback value). -/
def steerAdjustIn (d : ℝ) : ℝ := -d

/-- Outbound steering sign adjustment, main.cpp line 157:
steer_value = -vars[0] (steering angle is negative in rotated coordinates). -/
def steerValueOut (v0 : ℝ) : ℝ := -v0

/-- Actuation latency used by the handler: double dt_lat = 0.1. -/
noncomputable def dt_lat : ℝ := 1/10

/-- The six-component state handed to MPC::Solve. -/
@[ext] structure VehicleState where
  x : ℝ
  y : ℝ
  psi : ℝ
  v : ℝ
  cte : ℝ
  epsi : ℝ

/-- Latency compensation, main.cpp lines 117-153: cte and epsi from the
fitted polynomial at x = 0, the state initialized at the local-frame
origin, then (guarded by dt_lat > 0) the updates
x0 += v*cos(delta)*dt_lat, y0 += v*sin(delta)*dt_lat,
psi0 += v*delta/Lf*dt_lat, v0 += a*dt_lat,
cte += v*sin(delta)*dt_lat, epsi += v*delta/Lf*dt_lat,
where delta is the sign-adjusted previous steering. -/
noncomputable def latencyCompensate (coeffs : List ℝ) (v delta a : ℝ) : VehicleState :=
  let cte := polyeval coeffs 0
  let epsi := Real.arctan (coeffs.getD 1 0)
  let x0 : ℝ := 0
  let y0 : ℝ := 0
  let psi0 : ℝ := 0
  let v0 : ℝ := v
  if 0 < dt_lat then
    { x := x0 + v * Real.cos delta * dt_lat
      y := y0 + v * Real.sin delta * dt_lat
      psi := psi0 + v * delta / (Lf : ℝ) * dt_lat
      v := v0 + a * dt_lat
      cte := cte + v * Real.sin delta * dt_lat
      epsi := epsi + v * delta / (Lf : ℝ) * dt_lat }
  else
    { x := x0, y := y0, psi := psi0, v := v0, cte := cte, epsi := epsi }

/-- The telemetry handler up to the solver invocation (main.cpp lines
88-155): sign-adjust the previous steering, transform the waypoints to
the local frame (translate by the pose, rotate by -psi), fit the cubic,
run latency compensation, and produce the state and coefficients that
are handed to MPC::Solve.  A polyfit failure aborts the cycle before
any solve. -/
noncomputable def processTelemetry (ptsx ptsy : List ℝ) (px py psi v deltaRaw a : ℝ) :
    Except MPCError (VehicleState × List ℝ) :=
  let delta := steerAdjustIn deltaRaw
  let xvals := (List.range ptsx.length).map (fun i =>
    (ptsx.getD i 0 - px) * Real.cos (-psi) - (ptsy.getD i 0 - py) * Real.sin (-psi))
  let yvals := (List.range ptsy.length).map (fun i =>
    (ptsx.getD i 0 - px) * Real.sin (-psi) + (ptsy.getD i 0 - py) * Real.cos (-psi))
  match polyfit xvals yvals 3 with
  | .error e => .error e
  | .ok coeffs => .ok (latencyCompensate coeffs v delta a, coeffs)

/-! ### Numeric values of the configuration (helper lemmas) -/

theorem N_eq : N = 15 := rfl

theorem delta_start_eq : delta_start = 90 := rfl

theorem a_start_eq : a_start = 104 := rfl

theorem n_vars_eq : n_vars = 118 := rfl

/-! ### Claim theorems -/

/-- Claim C1, evidence of the code bug: the constraint vector has length
6N, and FG_eval writes the six initial pins, but its dynamics loop runs
only t = 0..N-3, so it writes 6N - 6 rows instead of 6N - 0 sized
coverage: within fg rows 1..6N exactly the last row of each of the six
blocks (indices N, 2N, ..., 6N) is never assigned, and in particular no
residual links the final state pair. -/
theorem C1_constraint_gap :
    n_constraints = 6 * N ∧
    fgWrittenIndices.card = 6 * N - 6 ∧
    (∀ s ∈ blockStarts, s + 1 ∈ fgWrittenIndices) ∧
    (Finset.Icc 1 (6 * N)).filter (fun j => j ∉ fgWrittenIndices) =
      {N, 2*N, 3*N, 4*N, 5*N, 6*N} := by
  decide

/-- Claim C2, evidence of the code bug: MPC::Solve computes the success
flag from the solver status but never consults it; the returned vector
is the same for every solver status, so a failed solve is silently
emitted as the actuation source. -/
theorem C2_status_unused :
    (∀ (s1 s2 : SolveStatus) (solx : ℕ → ℚ), mpcSolve s1 solx = mpcSolve s2 solx) ∧
    solveOk SolveStatus.maxiterExceeded = false ∧
    solveOk SolveStatus.success = true :=
  ⟨fun _ _ _ => rfl, rfl, rfl⟩

/-- Claim C3, counterexample: the claim says the positions in the
returned vector are taken for t at least 2 only, so the element at
vector index 2 would be x_2; on a decision vector that is 5 at index
x_start and 0 elsewhere, the element at vector index 2 is 5 = x_0,
not x_2 = 0. -/
theorem C3_counterexample :
    (mpcSolve SolveStatus.success (fun i => if i = 0 then (5:ℚ) else 0)).get? 2 ≠
      some ((fun i => if i = 0 then (5:ℚ) else 0) (x_start + 2)) := by
  decide

set_option maxHeartbeats 1000000 in
/-- Claim C3, amended: the vector returned by MPC::Solve is the
first-step actuation pair followed by the predicted positions (x_t, y_t)
for t = 0..N-2 (read by the consumer from vector index 2 onward), a
trajectory of exactly N-1 ordered pairs. -/
theorem C3_solve_output (st : SolveStatus) (solx : ℕ → ℚ) :
    mpcSolve st solx =
      [solx delta_start, solx a_start] ++
        ((List.range (N-1)).map (fun t => [solx (x_start + t), solx (y_start + t)])).flatten ∧
    (mpcSolve st solx).length = 2 + 2 * (N - 1) :=
  ⟨rfl, rfl⟩

/-- Claim C7: in the problem handed to the solver every steering
variable is bounded by plus-minus maxSteer = 0.436332, every
acceleration variable by plus-minus 1, every state variable by
plus-minus 1e19; consequently any decision vector satisfying the bounds
has all steering entries within maxSteer and all acceleration entries
within 1 in absolute value. -/
theorem C7_bounds (solx : ℕ → ℚ)
    (h : ∀ i < n_vars, vars_lowerbound i ≤ solx i ∧ solx i ≤ vars_upperbound i) :
    (∀ i < delta_start, vars_lowerbound i = -(10^19) ∧ vars_upperbound i = 10^19) ∧
    (∀ i, delta_start ≤ i → i < a_start →
      vars_lowerbound i = -maxSteer ∧ vars_upperbound i = maxSteer) ∧
    (∀ i, a_start ≤ i → i < n_vars →
      vars_lowerbound i = -1 ∧ vars_upperbound i = 1) ∧
    (∀ t < N - 1, |solx (delta_start + t)| ≤ maxSteer ∧ |solx (a_start + t)| ≤ 1) := by
  refine ⟨?_, ?_, ?_, ?_⟩
  · intro i hi
    unfold vars_lowerbound vars_upperbound
    rw [if_pos hi, if_pos hi]
    exact ⟨rfl, rfl⟩
  · intro i h1 h2
    unfold vars_lowerbound vars_upperbound
    rw [if_neg (by omega), if_pos h2, if_neg (by omega), if_pos h2]
    exact ⟨rfl, rfl⟩
  · intro i h1 h2
    rw [a_start_eq] at h1
    unfold vars_lowerbound vars_upperbound
    rw [if_neg (by rw [delta_start_eq]; omega), if_neg (by rw [a_start_eq]; omega),
      if_neg (by rw [delta_start_eq]; omega), if_neg (by rw [a_start_eq]; omega)]
    exact ⟨rfl, rfl⟩
  · intro t ht
    rw [N_eq] at ht
    have hd := h (delta_start + t) (by rw [n_vars_eq, delta_start_eq]; omega)
    have ha := h (a_start + t) (by rw [n_vars_eq, a_start_eq]; omega)
    unfold vars_lowerbound vars_upperbound at hd ha
    rw [if_neg (by rw [delta_start_eq]; omega), if_pos (by rw [delta_start_eq, a_start_eq]; omega),
      if_neg (by rw [delta_start_eq]; omega), if_pos (by rw [delta_start_eq, a_start_eq]; omega)] at hd
    rw [if_neg (by rw [delta_start_eq, a_start_eq]; omega),
      if_neg (by rw [a_start_eq]; omega),
      if_neg (by rw [delta_start_eq, a_start_eq]; omega),
      if_neg (by rw [a_start_eq]; omega)] at ha
    exact ⟨abs_le.mpr ⟨by linarith [hd.1], hd.2⟩, abs_le.mpr ⟨by linarith [ha.1], ha.2⟩⟩

/-- Claim C7 witness: the zero decision vector satisfies all bounds, and
the conclusions hold for it. -/
theorem C7_bounds_witness :
    (∀ i < delta_start, vars_lowerbound i = -(10^19) ∧ vars_upperbound i = 10^19) ∧
    (∀ i, delta_start ≤ i → i < a_start →
      vars_lowerbound i = -maxSteer ∧ vars_upperbound i = maxSteer) ∧
    (∀ i, a_start ≤ i → i < n_vars →
      vars_lowerbound i = -1 ∧ vars_upperbound i = 1) ∧
    (∀ t < N - 1, |(0:ℚ)| ≤ maxSteer ∧ |(0:ℚ)| ≤ 1) :=
  C7_bounds (fun _ => 0) (by
    intro i _
    unfold vars_lowerbound vars_upperbound
    split_ifs
    · constructor <;> norm_num
    · unfold maxSteer
      constructor <;> norm_num
    · constructor <;> norm_num)

/-- Helper: a left fold that adds three terms per iteration is the
initial value plus the sum of the terms. -/
theorem foldl_add3 (f g h : ℕ → ℚ) (n : ℕ) : ∀ c : ℚ,
    (List.range n).foldl (fun acc t => acc + f t + g t + h t) c
      = c + ∑ t ∈ Finset.range n, (f t + g t + h t) := by
  induction n with
  | zero => intro c; simp
  | succ m ih =>
    intro c
    rw [List.range_succ, List.foldl_append, ih, Finset.sum_range_succ]
    simp only [List.foldl_cons, List.foldl_nil]
    ring

/-- Helper: a left fold that adds two terms per iteration is the
initial value plus the sum of the terms. -/
theorem foldl_add2 (f g : ℕ → ℚ) (n : ℕ) : ∀ c : ℚ,
    (List.range n).foldl (fun acc t => acc + f t + g t) c
      = c + ∑ t ∈ Finset.range n, (f t + g t) := by
  induction n with
  | zero => intro c; simp
  | succ m ih =>
    intro c
    rw [List.range_succ, List.foldl_append, ih, Finset.sum_range_succ]
    simp only [List.foldl_cons, List.foldl_nil]
    ring

/-- Helper: the three accumulation loops of FG_eval::operator() written
as closed sums. -/
theorem fg0_eq_sums (vars : ℕ → ℚ) :
    fg0 vars =
      (∑ t ∈ Finset.range N, (w_cte * (vars (cte_start + t))^2
          + w_epsi * (vars (epsi_start + t))^2
          + w_dv * (vars (v_start + t) - ref_v)^2))
      + (∑ t ∈ Finset.range (N-1), (w_delta * (vars (delta_start + t))^2
          + w_a * (vars (a_start + t))^2))
      + (∑ t ∈ Finset.range (N-2), (w_ddelta * (vars (delta_start + t + 1) - vars (delta_start + t))^2
          + w_da * (vars (a_start + t + 1) - vars (a_start + t))^2)) := by
  simp only [fg0]
  rw [foldl_add3 (fun t => w_cte * (vars (cte_start + t))^2)
      (fun t => w_epsi * (vars (epsi_start + t))^2)
      (fun t => w_dv * (vars (v_start + t) - ref_v)^2) N,
    foldl_add2 (fun t => w_delta * (vars (delta_start + t))^2)
      (fun t => w_a * (vars (a_start + t))^2) (N-1),
    foldl_add2 (fun t => w_ddelta * (vars (delta_start + t + 1) - vars (delta_start + t))^2)
      (fun t => w_da * (vars (a_start + t + 1) - vars (a_start + t))^2) (N-2)]
  ring

/-- Helper: a square term with a positive weight vanishes only at zero. -/
theorem wsq_zero {w a : ℚ} (hw : 0 < w) (h : w * a^2 = 0) : a = 0 := by
  rcases mul_eq_zero.mp h with hw0 | ha
  · exact absurd hw0 hw.ne'
  · exact pow_eq_zero_iff (two_ne_zero) |>.mp ha

/-- Helper: nonnegativity of a weighted three-square sum. -/
theorem sum_sq3_nonneg (w1 w2 w3 : ℚ) (hw1 : 0 ≤ w1) (hw2 : 0 ≤ w2) (hw3 : 0 ≤ w3)
    (f g h : ℕ → ℚ) (n : ℕ) :
    0 ≤ ∑ t ∈ Finset.range n, (w1 * f t^2 + w2 * g t^2 + w3 * h t^2) :=
  Finset.sum_nonneg fun _ _ =>
    add_nonneg (add_nonneg (mul_nonneg hw1 (sq_nonneg _)) (mul_nonneg hw2 (sq_nonneg _)))
      (mul_nonneg hw3 (sq_nonneg _))

/-- Helper: nonnegativity of a weighted two-square sum. -/
theorem sum_sq2_nonneg (w1 w2 : ℚ) (hw1 : 0 ≤ w1) (hw2 : 0 ≤ w2)
    (f g : ℕ → ℚ) (n : ℕ) :
    0 ≤ ∑ t ∈ Finset.range n, (w1 * f t^2 + w2 * g t^2) :=
  Finset.sum_nonneg fun _ _ =>
    add_nonneg (mul_nonneg hw1 (sq_nonneg _)) (mul_nonneg hw2 (sq_nonneg _))

/-- Helper: a weighted three-square sum vanishes exactly when each base
vanishes at every index. -/
theorem sum_sq3_eq_zero_iff (w1 w2 w3 : ℚ) (hw1 : 0 < w1) (hw2 : 0 < w2) (hw3 : 0 < w3)
    (f g h : ℕ → ℚ) (n : ℕ) :
    (∑ t ∈ Finset.range n, (w1 * f t^2 + w2 * g t^2 + w3 * h t^2)) = 0 ↔
      ∀ t < n, f t = 0 ∧ g t = 0 ∧ h t = 0 := by
  rw [Finset.sum_eq_zero_iff_of_nonneg (fun t _ =>
    add_nonneg (add_nonneg (mul_nonneg hw1.le (sq_nonneg _)) (mul_nonneg hw2.le (sq_nonneg _)))
      (mul_nonneg hw3.le (sq_nonneg _)))]
  constructor
  · intro H t ht
    have hterm := H t (Finset.mem_range.mpr ht)
    have h1 : 0 ≤ w1 * f t^2 := mul_nonneg hw1.le (sq_nonneg _)
    have h2 : 0 ≤ w2 * g t^2 := mul_nonneg hw2.le (sq_nonneg _)
    have h3 : 0 ≤ w3 * h t^2 := mul_nonneg hw3.le (sq_nonneg _)
    refine ⟨wsq_zero hw1 (by linarith), wsq_zero hw2 (by linarith), wsq_zero hw3 (by linarith)⟩
  · intro H t ht
    obtain ⟨ha, hb, hc⟩ := H t (Finset.mem_range.mp ht)
    rw [ha, hb, hc]
    ring

/-- Helper: a weighted two-square sum vanishes exactly when each base
vanishes at every index. -/
theorem sum_sq2_eq_zero_iff (w1 w2 : ℚ) (hw1 : 0 < w1) (hw2 : 0 < w2)
    (f g : ℕ → ℚ) (n : ℕ) :
    (∑ t ∈ Finset.range n, (w1 * f t^2 + w2 * g t^2)) = 0 ↔
      ∀ t < n, f t = 0 ∧ g t = 0 := by
  rw [Finset.sum_eq_zero_iff_of_nonneg (fun t _ =>
    add_nonneg (mul_nonneg hw1.le (sq_nonneg _)) (mul_nonneg hw2.le (sq_nonneg _)))]
  constructor
  · intro H t ht
    have hterm := H t (Finset.mem_range.mpr ht)
    have h1 : 0 ≤ w1 * f t^2 := mul_nonneg hw1.le (sq_nonneg _)
    have h2 : 0 ≤ w2 * g t^2 := mul_nonneg hw2.le (sq_nonneg _)
    exact ⟨wsq_zero hw1 (by linarith), wsq_zero hw2 (by linarith)⟩
  · intro H t ht
    obtain ⟨ha, hb⟩ := H t (Finset.mem_range.mp ht)
    rw [ha, hb]
    ring

/-- Claim C6: the objective assembled in fg[0] equals the specification
formula: tracking terms over t = 0..N-1, actuation terms over
t = 0..N-2 and smoothness terms over t = 0..N-3 with weights
1000, 1000, 1, 100, 10, 10, 10 and reference speed 80, against the
spec's block layout of the decision vector. -/
theorem C6_cost_matches (vars : ℕ → ℚ) : fg0 vars = costSpec vars := by
  rw [fg0_eq_sums]
  rfl

/-- Claim C10: the objective fg[0] is nonnegative for every decision
vector, and it is zero exactly when every cte, epsi, delta and a entry
is zero and every v entry equals the reference speed ref_v (all cost
terms are squares with strictly positive weights; x, y and psi do not
enter the cost). -/
theorem C10_cost_zero_iff (vars : ℕ → ℚ) :
    0 ≤ fg0 vars ∧
    (fg0 vars = 0 ↔
      ((∀ t < N, vars (cte_start + t) = 0 ∧ vars (epsi_start + t) = 0 ∧
          vars (v_start + t) = ref_v) ∧
       (∀ t < N - 1, vars (delta_start + t) = 0 ∧ vars (a_start + t) = 0))) := by
  have hw1000 : (0:ℚ) < 1000 := by norm_num
  have hw100 : (0:ℚ) < 100 := by norm_num
  have hw10 : (0:ℚ) < 10 := by norm_num
  have hw1 : (0:ℚ) < 1 := by norm_num
  have hwc : (0:ℚ) < w_cte := hw1000
  have hwe : (0:ℚ) < w_epsi := hw1000
  have hwv : (0:ℚ) < w_dv := hw1
  have hwd : (0:ℚ) < w_delta := hw100
  have hwa : (0:ℚ) < w_a := hw10
  have hwdd : (0:ℚ) < w_ddelta := hw10
  have hwda : (0:ℚ) < w_da := hw10
  have h1 := sum_sq3_nonneg w_cte w_epsi w_dv hwc.le hwe.le hwv.le
    (fun t => vars (cte_start + t)) (fun t => vars (epsi_start + t))
    (fun t => vars (v_start + t) - ref_v) N
  have h2 := sum_sq2_nonneg w_delta w_a hwd.le hwa.le
    (fun t => vars (delta_start + t)) (fun t => vars (a_start + t)) (N-1)
  have h3 := sum_sq2_nonneg w_ddelta w_da hwdd.le hwda.le
    (fun t => vars (delta_start + t + 1) - vars (delta_start + t))
    (fun t => vars (a_start + t + 1) - vars (a_start + t)) (N-2)
  simp only at h1 h2 h3
  constructor
  · rw [fg0_eq_sums]
    linarith
  · rw [fg0_eq_sums]
    constructor
    · intro h0
      have e1 : (∑ t ∈ Finset.range N, (w_cte * (vars (cte_start + t))^2
          + w_epsi * (vars (epsi_start + t))^2
          + w_dv * (vars (v_start + t) - ref_v)^2)) = 0 := by linarith
      have e2 : (∑ t ∈ Finset.range (N-1), (w_delta * (vars (delta_start + t))^2
          + w_a * (vars (a_start + t))^2)) = 0 := by linarith
      have g1 := (sum_sq3_eq_zero_iff w_cte w_epsi w_dv hwc hwe hwv
        (fun t => vars (cte_start + t)) (fun t => vars (epsi_start + t))
        (fun t => vars (v_start + t) - ref_v) N).mp e1
      have g2 := (sum_sq2_eq_zero_iff w_delta w_a hwd hwa
        (fun t => vars (delta_start + t)) (fun t => vars (a_start + t)) (N-1)).mp e2
      refine ⟨fun t ht => ?_, fun t ht => g2 t ht⟩
      obtain ⟨ha, hb, hc⟩ := g1 t ht
      exact ⟨ha, hb, sub_eq_zero.mp hc⟩
    · rintro ⟨hst, hc⟩
      have e1 : (∑ t ∈ Finset.range N, (w_cte * (vars (cte_start + t))^2
          + w_epsi * (vars (epsi_start + t))^2
          + w_dv * (vars (v_start + t) - ref_v)^2)) = 0 :=
        (sum_sq3_eq_zero_iff w_cte w_epsi w_dv hwc hwe hwv
          (fun t => vars (cte_start + t)) (fun t => vars (epsi_start + t))
          (fun t => vars (v_start + t) - ref_v) N).mpr
          (fun t ht => ⟨(hst t ht).1, (hst t ht).2.1, sub_eq_zero.mpr (hst t ht).2.2⟩)
      have e2 : (∑ t ∈ Finset.range (N-1), (w_delta * (vars (delta_start + t))^2
          + w_a * (vars (a_start + t))^2)) = 0 :=
        (sum_sq2_eq_zero_iff w_delta w_a hwd hwa
          (fun t => vars (delta_start + t)) (fun t => vars (a_start + t)) (N-1)).mpr
          (fun t ht => hc t ht)
      have e3 : (∑ t ∈ Finset.range (N-2), (w_ddelta * (vars (delta_start + t + 1)
          - vars (delta_start + t))^2
          + w_da * (vars (a_start + t + 1) - vars (a_start + t))^2)) = 0 :=
        (sum_sq2_eq_zero_iff w_ddelta w_da hwdd hwda
          (fun t => vars (delta_start + t + 1) - vars (delta_start + t))
          (fun t => vars (a_start + t + 1) - vars (a_start + t)) (N-2)).mpr
          (fun t ht => by
            have hd1 := (hc t (by omega)).1
            have ha1 := (hc t (by omega)).2
            have hd2 : vars (delta_start + t + 1) = 0 := by
              rw [show delta_start + t + 1 = delta_start + (t+1) from by omega]
              exact (hc (t+1) (by omega)).1
            have ha2 : vars (a_start + t + 1) = 0 := by
              rw [show a_start + t + 1 = a_start + (t+1) from by omega]
              exact (hc (t+1) (by omega)).2
            rw [hd1, ha1, hd2, ha2]
            constructor <;> ring)
      rw [e1, e2, e3]
      norm_num

/-- Claim C8, counterexample: the steering sign conversion is not
applied only once in the flow; the inbound telemetry steering is also
negated (main.cpp line 97), so a previous steering of 1 is used as -1,
a second application site besides the outbound negation. -/
theorem C8_counterexample : steerAdjustIn 1 ≠ (1:ℝ) := by
  unfold steerAdjustIn
  norm_num

/-- Claim C8, amended: the sign conversion appears at both boundary
crossings: the outbound command is a single negation of the first
steering variable (no double negation on the output path), the inbound
previous-steering feedback is a single negation, and the two compose to
the identity across a full feedback round trip. -/
theorem C8_sign_boundaries :
    (∀ s : ℝ, steerValueOut s = -s) ∧
    (∀ d : ℝ, steerAdjustIn d = -d) ∧
    (∀ s : ℝ, steerAdjustIn (steerValueOut s) = s) :=
  ⟨fun _ => rfl, fun _ => rfl, fun s => neg_neg s⟩

/-- Claim C4: a telemetry input with fewer than 4 waypoints (so the
requested order 3 is at least the point count) fails polyfit's guard:
the cycle stops with the InsufficientWaypoints condition, no fit is
computed and the optimizer is never reached. -/
theorem C4_insufficient_waypoints (ptsx ptsy : List ℝ) (px py psi v draw a : ℝ)
    (hlen : ptsy.length = ptsx.length) (hfew : ptsx.length < 4) :
    processTelemetry ptsx ptsy px py psi v draw a =
      Except.error MPCError.insufficientWaypoints := by
  unfold processTelemetry
  simp only [polyfit, List.length_map, List.length_range, hlen]
  rw [if_neg (by simp), if_pos (by omega)]

/-- Claim C4 witness: three waypoints abort the cycle with the
InsufficientWaypoints condition. -/
theorem C4_insufficient_waypoints_witness :
    processTelemetry [0, 1, 2] [0, 0, 0] 0 0 0 10 0 0 =
      Except.error MPCError.insufficientWaypoints :=
  C4_insufficient_waypoints [0, 1, 2] [0, 0, 0] 0 0 0 10 0 0 rfl (by norm_num)

/-- Claim C5, counterexample: the claim says the position projection
uses the kinematic relations of the dynamics constraints from psi = 0,
which would give y0 = v * sin(0) * dt_lat = 0; the code instead uses
the previous steering angle inside cos and sin, and with v = 1,
delta_prev = pi/3 the projected y0 is sin(pi/3)/10, which is nonzero. -/
theorem C5_counterexample :
    (latencyCompensate [0, 0, 0, 0] 1 (Real.pi/3) 0).y ≠ 1 * Real.sin 0 * dt_lat := by
  unfold latencyCompensate
  rw [if_pos (by unfold dt_lat; norm_num)]
  simp only [Real.sin_zero]
  unfold dt_lat
  rw [Real.sin_pi_div_three]
  have h3 : 0 < Real.sqrt 3 := Real.sqrt_pos.mpr (by norm_num)
  intro hcontra
  nlinarith [hcontra]

/-- Claim C5, amended: the latency compensator projects from the
local-frame origin with the previous (sign-adjusted) steering in place
of the vanishing heading: x0 = v*cos(delta_prev)*dt_lat,
y0 = v*sin(delta_prev)*dt_lat (not cos/sin of psi = 0), while
psi0 = v*delta_prev/Lf*dt_lat, v0 = v + a*dt_lat, and the errors use
the stated first-order corrections cte0 = polynomial(0) +
v*sin(delta_prev)*dt_lat and epsi0 = atan(c1) + v*delta_prev/Lf*dt_lat. -/
theorem C5_latency_closed_form (coeffs : List ℝ) (v delta a : ℝ) :
    latencyCompensate coeffs v delta a =
      ⟨v * Real.cos delta * dt_lat,
       v * Real.sin delta * dt_lat,
       v * delta / (Lf : ℝ) * dt_lat,
       v + a * dt_lat,
       polyeval coeffs 0 + v * Real.sin delta * dt_lat,
       Real.arctan (coeffs.getD 1 0) + v * delta / (Lf : ℝ) * dt_lat⟩ := by
  unfold latencyCompensate
  rw [if_pos (by unfold dt_lat; norm_num)]
  ext <;> ring

/-- Helper: the multiplicative column recurrence of polyfit builds the
monomial powers. -/
theorem vanPow_eq_pow {K : Type*} [Field K] (x : K) (i : ℕ) : vanPow x i = x ^ i := by
  induction i with
  | zero => rw [vanPow, pow_zero]
  | succ m ih => rw [vanPow, ih, pow_succ]

/-- Helper: entries of the design matrix are monomials. -/
theorem designMatrix_apply {K : Type*} [Field K] (order : ℕ) {n : ℕ}
    (xs : Fin n → K) (i : Fin n) (j : Fin (order + 1)) :
    designMatrix order xs i j = xs i ^ (j : ℕ) :=
  vanPow_eq_pow _ _

/-- Helper: for sample abscissae with at least order+1 distinct values,
the Gram matrix of the design matrix has nonzero determinant. -/
theorem gram_det_ne_zero (m : ℕ) {n : ℕ} (hmn : m + 1 ≤ n) (xs : Fin n → ℚ)
    (hinj : Function.Injective xs) :
    ((designMatrix m xs)ᵀ * designMatrix m xs).det ≠ 0 := by
  intro hdet
  obtain ⟨v, hv0, hv⟩ := Matrix.exists_mulVec_eq_zero_iff.mpr hdet
  have hAv : designMatrix m xs *ᵥ v = 0 := by
    have h1 : v ⬝ᵥ (((designMatrix m xs)ᵀ * designMatrix m xs) *ᵥ v) =
        v ⬝ᵥ (0 : Fin (m+1) → ℚ) := congrArg (dotProduct v) hv
    rw [← Matrix.mulVec_mulVec, dotProduct_mulVec, vecMul_transpose, dotProduct_zero,
      dotProduct_self_eq_zero] at h1
    exact h1
  have hVan : Matrix.vandermonde (fun i : Fin (m+1) => xs (Fin.castLE hmn i)) *ᵥ v = 0 := by
    funext i
    have hrow := congrFun hAv (Fin.castLE hmn i)
    simpa [Matrix.vandermonde, Matrix.mulVec, dotProduct, designMatrix_apply] using hrow
  have hinj2 : Function.Injective (fun i : Fin (m+1) => xs (Fin.castLE hmn i)) :=
    hinj.comp (Fin.castLE_injective hmn)
  have hdet2 : (Matrix.vandermonde (fun i : Fin (m+1) => xs (Fin.castLE hmn i))).det ≠ 0 :=
    Matrix.det_vandermonde_ne_zero_iff.mpr hinj2
  exact hdet2 (Matrix.exists_mulVec_eq_zero_iff.mp ⟨v, hv0, hVan⟩)

/-- Helper: when the Gram matrix is nonsingular, the normal-equations
least-squares solve recovers any exact coefficient vector. -/
theorem lsqSolve_exact {n k : ℕ} (A : Matrix (Fin n) (Fin k) ℚ) (c : Fin k → ℚ)
    (hdet : (Aᵀ * A).det ≠ 0) : lsqSolve A (A *ᵥ c) = c := by
  unfold lsqSolve
  have hu : IsUnit (Aᵀ * A).det := isUnit_iff_ne_zero.mpr hdet
  rw [show ((Aᵀ * A).det⁻¹ • (Aᵀ * A).adjugate) = (Aᵀ * A)⁻¹ by
    rw [Matrix.inv_def, Ring.inverse_eq_inv]]
  rw [Matrix.mulVec_mulVec, Matrix.mulVec_mulVec, Matrix.mul_assoc,
    Matrix.nonsing_inv_mul _ hu, Matrix.one_mulVec]

/-- Helper: polyeval on four coefficients is the cubic it encodes. -/
theorem polyeval_four (p0 p1 p2 p3 x : ℚ) :
    polyeval [p0, p1, p2, p3] x = p0 + p1*x + p2*x^2 + p3*x^3 := by
  show (0:ℚ) + p0 * x^0 + p1 * x^1 + p2 * x^2 + p3 * x^3 = p0 + p1*x + p2*x^2 + p3*x^3
  ring

/-- Helper: sampling a cubic at the abscissae is the design matrix
applied to its coefficient vector. -/
theorem sampling_eq_mulVec {n : ℕ} (xs : Fin n → ℚ) (p0 p1 p2 p3 : ℚ) :
    (fun i => polyeval [p0, p1, p2, p3] (xs i)) =
      designMatrix 3 xs *ᵥ ![p0, p1, p2, p3] := by
  funext i
  rw [polyeval_four]
  simp [Matrix.mulVec, dotProduct, designMatrix_apply, Fin.sum_univ_four]
  rw [show ((3 : Fin 4) : ℕ) = 3 from rfl]
  ring

/-- Claim C9: for a polynomial of degree at most 3 and at least 4 sample
points with distinct x values whose y values are generated by polyeval,
polyfit at order 3 returns exactly the polynomial's coefficients (exact
rational arithmetic): fitting is a left inverse of sampling. -/
theorem C9_polyfit_left_inverse (xs : List ℚ) (hlen : 4 ≤ xs.length)
    (hnodup : xs.Nodup) (p0 p1 p2 p3 : ℚ) (ys : List ℚ)
    (hys : ys = xs.map (polyeval [p0, p1, p2, p3])) :
    polyfit xs ys 3 = Except.ok [p0, p1, p2, p3] := by
  subst hys
  unfold polyfit
  rw [if_neg (by simp), if_neg (by push_neg; exact ⟨by norm_num, hlen⟩)]
  have hinj : Function.Injective (fun i : Fin xs.length => xs.get i) :=
    List.nodup_iff_injective_get.mp hnodup
  have hysF : (fun i : Fin xs.length => (xs.map (polyeval [p0, p1, p2, p3])).getD i 0) =
      designMatrix 3 (fun i : Fin xs.length => xs.get i) *ᵥ ![p0, p1, p2, p3] := by
    rw [← sampling_eq_mulVec]
    funext i
    have hi : (i : ℕ) < (xs.map (polyeval [p0, p1, p2, p3])).length := by
      rw [List.length_map]
      exact i.isLt
    rw [List.getD_eq_getElem?_getD, List.getElem?_eq_getElem hi, Option.getD_some,
      List.getElem_map]
    rfl
  have hdet := gram_det_ne_zero 3 hlen (fun i : Fin xs.length => xs.get i) hinj
  have hcore : polyfitCore 3 (fun i : Fin xs.length => xs.get i)
      (fun i : Fin xs.length => (xs.map (polyeval [p0, p1, p2, p3])).getD i 0) =
      ![p0, p1, p2, p3] := by
    unfold polyfitCore
    rw [hysF]
    exact lsqSolve_exact _ _ hdet
  rw [hcore]
  simp [List.ofFn_succ]

/-- Claim C9 witness: fitting the samples of 1 + 2x + x cubed at
x = 0, 1, 2, 3 returns its coefficients. -/
theorem C9_polyfit_left_inverse_witness :
    polyfit [0, 1, 2, 3] ([0, 1, 2, 3].map (polyeval [(1:ℚ), 2, 0, 1])) 3 =
      Except.ok [1, 2, 0, 1] :=
  C9_polyfit_left_inverse [0, 1, 2, 3] (by norm_num) (by decide) 1 2 0 1 _ rfl

end MPCRepo
